/-
Verification of the JapaneseReader repository's spaced-repetition (SRS)
core and of two source-level text-processing functions.

The backend SRS Scheduler and Review Store (endpoint `/api/srs/review/:kanji`
and `/api/srs/add`) are invoked by the frontend (SrsReviewTester.jsx,
OutputDisplay.jsx) but their implementation file is not part of the sources
available here, so they are modelled from the specification (spec.md §3–§4, §7).
Floating-point numbers are modelled by rationals (ℚ); JavaScript
`Math.round` is modelled by `jsRound` (round half toward +∞).

The kanji-character validation (`handleReviewSubmit` in SrsReviewTester.jsx,
`isKanji` in backend/server.js) and the sentence splitting of the
`/api/process-text` endpoint (backend/server.js) are translated directly
from the source.
-/
import Mathlib

namespace JapaneseReader

/-! ### SRS Scheduler (spec.md §4.1) -/

/-- Scheduling state of one review item: `{interval, repetition, easeFactor}`. -/
structure SchedState where
  interval : ℚ
  repetition : ℕ
  easeFactor : ℚ
  deriving DecidableEq, Repr

/-- JavaScript `Math.round`: round half toward positive infinity, `⌊q + 1/2⌋`. -/
def jsRound (q : ℚ) : ℤ := ⌊q + 1/2⌋

/-- Modelled from the spec: the ease-factor delta
`delta = 0.1 - (5 - grade) * (0.08 + (5 - grade) * 0.02)` (spec.md §4.1 step 1).
The Scheduler implementation is not among the available sources. -/
def efDelta (grade : ℤ) : ℚ :=
  1/10 - (5 - (grade : ℚ)) * (8/100 + (5 - (grade : ℚ)) * (2/100))

/-- Modelled from the spec: the SM-2-style Scheduler of spec.md §4.1
(steps 2–4): `newEaseFactor = max(1.3, easeFactor + delta)`; on `grade < 3`
reset to `repetition = 0, interval = 1`; otherwise increment the repetition
and pick the interval `1 / 6 / round(previousInterval * newEaseFactor)`
according to the new repetition count. The Scheduler implementation is not
among the available sources. -/
def scheduler (s : SchedState) (grade : ℤ) : SchedState :=
  let ef := max (13/10) (s.easeFactor + efDelta grade)
  if grade < 3 then
    { interval := 1, repetition := 0, easeFactor := ef }
  else
    let rep := s.repetition + 1
    let iv : ℚ :=
      if rep = 1 then 1
      else if rep = 2 then 6
      else (jsRound (s.interval * ef) : ℚ)
    { interval := iv, repetition := rep, easeFactor := ef }

/-- The default scheduling state for a pair with no stored row (spec.md §3). -/
def defaultState : SchedState := { interval := 0, repetition := 0, easeFactor := 5/2 }

/-! ### Review Store (spec.md §4.2, §6, §7) -/

/-- A stored review row (spec.md §3, §6): the scheduling fields plus the due
date and last-reviewed timestamp. Timestamps are modelled in days as
rationals, so "now + interval days" is rational addition. -/
structure ReviewItem where
  interval : ℚ
  repetition : ℕ
  easeFactor : ℚ
  dueDate : ℚ
  lastReviewedAt : ℚ
  deriving DecidableEq, Repr

/-- Modelled from the spec: the durable store, rows keyed by
`(user_id, kanji_character)` (spec.md §6). The Store implementation is not
among the available sources. -/
abbrev Store := List ((String × String) × ReviewItem)

/-- Look up the row for a key, returning the first row whose key matches. -/
def lookupRow (st : Store) (k : String × String) : Option ReviewItem :=
  match st with
  | [] => none
  | (k', item) :: rest => if k' = k then some item else lookupRow rest k

/-- Modelled from the spec: `getOrDefault(userId, kanjiCharacter)`
(spec.md §4.2) — the existing row's scheduling fields if a row exists, else
the defaults `{interval: 0, repetition: 0, easeFactor: 2.5}`; read-only,
absence of a row is not an error. The Store implementation is not among the
available sources. -/
def getOrDefault (st : Store) (k : String × String) : SchedState :=
  match lookupRow st k with
  | some item =>
    { interval := item.interval, repetition := item.repetition, easeFactor := item.easeFactor }
  | none => defaultState

/-- Modelled from the spec: the upsert of spec.md §4.2 step 4 — if a row for
the key is present, overwrite it in place; if absent, insert a new row. The
Store implementation is not among the available sources. -/
def upsert : Store → (String × String) → ReviewItem → Store
  | [], k, item => [(k, item)]
  | (k', it) :: rest, k, item =>
    if k' = k then (k, item) :: rest else (k', it) :: upsert rest k item

/-- Modelled from the spec: the error taxonomy of spec.md §7 — a validation
failure is a distinct error kind from a storage failure. -/
inductive SrsError where
  | validation
  | storage
  deriving DecidableEq, Repr

/-- The row written by a successful review (spec.md §4.2 steps 1–4):
the Scheduler output applied to the fetched-or-default current state, with
`dueDate = now + next.interval` days and `lastReviewedAt = now`. -/
def reviewedItem (st : Store) (userId kanjiCharacter : String) (grade : ℤ) (now : ℚ) :
    ReviewItem :=
  let next := scheduler (getOrDefault st (userId, kanjiCharacter)) grade
  { interval := next.interval, repetition := next.repetition,
    easeFactor := next.easeFactor, dueDate := now + next.interval,
    lastReviewedAt := now }

/-- Modelled from the spec: `recordReview(userId, kanjiCharacter, grade, now)`
(spec.md §4.2): validate the grade (integer in [0,5], else ValidationError),
fetch-or-default, apply the Scheduler, and upsert the resulting row. The
endpoint implementation is not among the available sources. -/
def recordReview (st : Store) (userId kanjiCharacter : String) (grade : ℤ) (now : ℚ) :
    Except SrsError Store :=
  if grade < 0 ∨ 5 < grade then .error .validation
  else .ok (upsert st (userId, kanjiCharacter) (reviewedItem st userId kanjiCharacter grade now))

/-- Run a sequence of `recordReview` calls for one `(userId, kanjiCharacter)`
pair; a rejected call leaves the store in its pre-call state (spec.md §7). -/
def runReviews (userId kanjiCharacter : String) : Store → List (ℤ × ℚ) → Store
  | st, [] => st
  | st, (g, t) :: rest =>
    match recordReview st userId kanjiCharacter g t with
    | .ok st2 => runReviews userId kanjiCharacter st2 rest
    | .error _ => runReviews userId kanjiCharacter st rest

/-- Number of rows in the store whose key is `k`. -/
def countKey : Store → (String × String) → ℕ
  | [], _ => 0
  | (k', _) :: rest, k => (if k' = k then 1 else 0) + countKey rest k

/-- Modelled from the spec: the Scheduler together with the boundary
validation of its input contract (spec.md §4.1, §7): a grade outside the
integer range [0,5] is a validation error at the boundary; an in-range grade
always reaches the pure Scheduler. The implementation is not among the
available sources. -/
def schedulerChecked (s : SchedState) (grade : ℤ) : Except SrsError SchedState :=
  if grade < 0 ∨ 5 < grade then .error .validation else .ok (scheduler s grade)

/-! ### Kanji-character validation (frontend SrsReviewTester.jsx and
backend/server.js).  JavaScript strings are modelled as lists of UTF-16 code
units (natural numbers); for the one-character strings at issue a code unit
is the code point. -/

/-- From `backend/server.js` (`isKanji`) and `SrsReviewTester.jsx`
`handleReviewSubmit`: the character class `[一-龯㐀-䶿]`
applied to one code unit. -/
def isKanjiCode (c : ℕ) : Bool :=
  (0x4E00 ≤ c && c ≤ 0x9FAF) || (0x3400 ≤ c && c ≤ 0x4DBF)

/-- From `SrsReviewTester.jsx`, `handleReviewSubmit`: the input is rejected
when it is empty or its length is not 1, and then when
`/[一-龯㐀-䶿]/.test(kanjiToReview)` is false (the regex,
unanchored, matches when some code unit is in the class). -/
def handleReviewSubmitAccepts (s : List ℕ) : Bool :=
  s.length == 1 && s.any isKanjiCode

/-- The specification's own validation predicate (spec.md §3, §6): a single
character within the CJK Unified Ideographs block (U+4E00–U+9FFF) or the CJK
Unified Ideographs Extension A block (U+3400–U+4DBF). Stated from the
spec's words for comparison with `handleReviewSubmitAccepts`. -/
def specCJKAccepts (s : List ℕ) : Bool :=
  s.length == 1 &&
    s.any (fun c => (0x4E00 ≤ c && c ≤ 0x9FFF) || (0x3400 ≤ c && c ≤ 0x4DBF))

/-! ### Sentence splitting of the `/api/process-text` endpoint
(backend/server.js): `const sentences = text.match(/[^。！？]+[。！？]?/g) || [text];` -/

/-- From `backend/server.js`: the sentence-terminator character class
`[。！？]` of the split regex. -/
def isTerm (c : Char) : Bool := c = '。' || c = '！' || c = '？'

/-- One step of the left-to-right scan that computes the global matches of
`/[^。！？]+[。！？]?/g`: the state is (matches emitted so far, currently
open match). A non-terminator extends the open match; a terminator closes a
non-empty open match, becoming its final character, and is skipped when no
match is open (the pattern needs at least one non-terminator first, so a
terminator can never start a match). -/
def splitStep (s : List (List Char) × List Char) (c : Char) :
    List (List Char) × List Char :=
  if isTerm c then
    if s.2.isEmpty then s
    else (s.1 ++ [s.2 ++ [c]], [])
  else (s.1, s.2 ++ [c])

/-- All matches of `/[^。！？]+[。！？]?/g` on the text, in order (empty when
the regex does not match, i.e. JavaScript `match` returns `null`). -/
def splitCore (l : List Char) : List (List Char) :=
  let s := l.foldl splitStep ([], [])
  if s.2.isEmpty then s.1 else s.1 ++ [s.2]

/-- From `backend/server.js` line 168:
`text.match(/[^。！？]+[。！？]?/g) || [text]`. -/
def sentences (l : List Char) : List (List Char) :=
  if splitCore l = [] then [l] else splitCore l

/-- From `backend/server.js` lines 160–163: the endpoint accepts the text
only if it is a non-empty string whose `trim()` is non-empty, i.e. some
character is not whitespace. JavaScript string `trim` whitespace is
modelled by the ASCII whitespace characters plus the ideographic space. -/
def isJsSpace (c : Char) : Bool :=
  c = ' ' || c = '\t' || c = '\n' || c = '\r' || c = '　'

/-- Acceptance test of the endpoint for the input text. -/
def acceptsText (l : List Char) : Bool := l.any (fun c => !(isJsSpace c))

/-- Scan predicate `scanOK opn l`: reading `l` left to right, with `opn` recording whether a
match is currently open (a non-terminator has been read more recently than
any terminator), every terminator encountered closes an open match. -/
def scanOK : Bool → List Char → Bool
  | _, [] => true
  | opn, c :: rest => if isTerm c then opn && scanOK false rest else scanOK true rest

/-- No orphan terminator: the text has no sentence terminator at the start
and none immediately following another terminator. -/
def noOrphan (l : List Char) : Bool := scanOK false l

/-! ### Helper lemmas -/

/-- Both branches of the Scheduler store the freshly clamped ease factor. -/
theorem scheduler_easeFactor_eq (s : SchedState) (g : ℤ) :
    (scheduler s g).easeFactor = max (13/10) (s.easeFactor + efDelta g) := by
  unfold scheduler
  split <;> rfl

/-- The stored ease factor is never below the 1.3 floor. -/
theorem scheduler_easeFactor_floor (s : SchedState) (g : ℤ) :
    13/10 ≤ (scheduler s g).easeFactor := by
  rw [scheduler_easeFactor_eq]
  exact le_max_left _ _

/-- After an upsert, looking the key up returns exactly the written row. -/
theorem lookupRow_upsert_self (st : Store) (k : String × String) (item : ReviewItem) :
    lookupRow (upsert st k item) k = some item := by
  induction st with
  | nil => simp [upsert, lookupRow]
  | cons hd tl ih =>
    obtain ⟨k', it⟩ := hd
    by_cases hk : k' = k
    · simp [upsert, lookupRow, hk]
    · simp [upsert, lookupRow, hk, ih]

/-- An upsert never drives the row count of its key above one. -/
theorem countKey_upsert_le (st : Store) (k : String × String) (item : ReviewItem)
    (h : countKey st k ≤ 1) : countKey (upsert st k item) k ≤ 1 := by
  induction st with
  | nil => simp [upsert, countKey]
  | cons hd tl ih =>
    obtain ⟨k', it⟩ := hd
    by_cases hk : k' = k
    · simp only [countKey, hk, if_pos rfl] at h
      simpa [upsert, countKey, hk] using h
    · simp only [countKey, if_neg hk] at h
      have htl := ih (by omega)
      simp only [upsert, if_neg hk, countKey]
      omega


/-- After an upsert, the fetched scheduling fields are those of the row. -/
theorem getOrDefault_upsert (st : Store) (k : String × String) (item : ReviewItem) :
    getOrDefault (upsert st k item) k =
      { interval := item.interval, repetition := item.repetition,
        easeFactor := item.easeFactor } := by
  unfold getOrDefault
  rw [lookupRow_upsert_self]

/-- A successful `recordReview` is exactly the upsert of the reviewed row. -/
theorem recordReview_ok_inv (st st' : Store) (u ka : String) (g : ℤ) (now : ℚ)
    (h : recordReview st u ka g now = .ok st') :
    st' = upsert st (u, ka) (reviewedItem st u ka g now) := by
  unfold recordReview at h
  by_cases hg : g < 0 ∨ 5 < g
  · simp [hg] at h
  · simp only [hg, if_false] at h
    exact (Except.ok.injEq _ _).mp h |>.symm

/-- An in-range grade makes `recordReview` succeed with the upserted row. -/
theorem recordReview_valid_eq (st : Store) (u ka : String) (g : ℤ) (now : ℚ)
    (h0 : 0 ≤ g) (h5 : g ≤ 5) :
    recordReview st u ka g now = .ok (upsert st (u, ka) (reviewedItem st u ka g now)) := by
  unfold recordReview
  have : ¬(g < 0 ∨ 5 < g) := by omega
  simp [this]

/-- An out-of-range grade makes `recordReview` fail with a validation error. -/
theorem recordReview_invalid_eq (st : Store) (u ka : String) (g : ℤ) (now : ℚ)
    (h : g < 0 ∨ 5 < g) :
    recordReview st u ka g now = .error .validation := by
  simp [recordReview, h]

/-- Any sequence of reviews for a pair keeps at most one row for that pair. -/
theorem countKey_runReviews (u ka : String) (calls : List (ℤ × ℚ)) (st : Store)
    (h : countKey st (u, ka) ≤ 1) :
    countKey (runReviews u ka st calls) (u, ka) ≤ 1 := by
  induction calls generalizing st with
  | nil => simpa [runReviews] using h
  | cons c rest ih =>
    obtain ⟨g, t⟩ := c
    by_cases hg : g < 0 ∨ 5 < g
    · rw [runReviews, recordReview_invalid_eq st u ka g t hg]
      exact ih st h
    · have h0 : 0 ≤ g := by omega
      have h5 : g ≤ 5 := by omega
      rw [runReviews, recordReview_valid_eq st u ka g t h0 h5]
      exact ih _ (countKey_upsert_le st (u, ka) (reviewedItem st u ka g t) h)

/-- After a non-empty sequence of in-range reviews, the stored ease factor
of the reviewed pair is at least 1.3. -/
theorem easeFactor_floor_runReviews (u ka : String) (calls : List (ℤ × ℚ)) :
    ∀ st : Store, calls ≠ [] → (∀ c ∈ calls, 0 ≤ c.1 ∧ c.1 ≤ 5) →
      ∀ item : ReviewItem, lookupRow (runReviews u ka st calls) (u, ka) = some item →
        13/10 ≤ item.easeFactor := by
  induction calls with
  | nil => intro st hne _ _ _; exact absurd rfl hne
  | cons c rest ih =>
    intro st _ hval item hlook
    obtain ⟨g, t⟩ := c
    have hg := hval (g, t) (List.mem_cons_self _ _)
    simp only [runReviews, recordReview_valid_eq st u ka g t hg.1 hg.2] at hlook
    by_cases hrest : rest = []
    · subst hrest
      simp only [runReviews, lookupRow_upsert_self] at hlook
      have hitem : item = reviewedItem st u ka g t := (Option.some.inj hlook).symm
      rw [hitem]
      exact scheduler_easeFactor_floor (getOrDefault st (u, ka)) g
    · exact ih _ hrest (fun c hc => hval c (List.mem_cons_of_mem _ hc)) item hlook

/-- Scan invariant: when every terminator closes an open match, the emitted
matches followed by the still-open match spell out exactly the input
consumed so far. -/
theorem scanOK_foldl (l : List Char) :
    ∀ (acc : List (List Char)) (cur : List Char),
      scanOK (!cur.isEmpty) l = true →
      (l.foldl splitStep (acc, cur)).1.flatten ++ (l.foldl splitStep (acc, cur)).2
        = acc.flatten ++ cur ++ l := by
  induction l with
  | nil => intro acc cur _; simp
  | cons c rest ih =>
    intro acc cur h
    rw [List.foldl_cons]
    by_cases hc : isTerm c = true
    · simp only [scanOK, hc, if_pos, Bool.and_eq_true] at h
      have hcur : cur.isEmpty = false := by
        cases hcur : cur.isEmpty with
        | false => rfl
        | true => rw [hcur] at h; exact absurd h.1 (by simp)
      have hstep : splitStep (acc, cur) c = (acc ++ [cur ++ [c]], []) := by
        simp [splitStep, hc, hcur]
      rw [hstep]
      have := ih (acc ++ [cur ++ [c]]) [] (by simpa using h.2)
      simpa [List.append_assoc] using this
    · simp only [scanOK, hc, if_neg, Bool.false_eq_true, not_false_eq_true] at h
      have hstep : splitStep (acc, cur) c = (acc, cur ++ [c]) := by
        simp [splitStep, hc]
      rw [hstep]
      have hne : (cur ++ [c]).isEmpty = false := by cases cur <;> rfl
      have := ih acc (cur ++ [c]) (by rw [hne]; simpa using h)
      simpa [List.append_assoc] using this

/-! ### Claim theorems -/

/-- Claim C1: For every current state with `easeFactor ≥ 1.3` and every integer
grade in `[0, 5]`, the Scheduler computes
`newEaseFactor = max(1.3, easeFactor + delta)` with
`delta = 0.1 - (5 - grade) * (0.08 + (5 - grade) * 0.02)`, hence at least
1.3; consequently, for any non-empty sequence of `recordReview` calls with
grades in `[0, 5]`, the stored ease factor is never less than 1.3. -/
theorem srs_ease_floor (s : SchedState) (g : ℤ) (hef : 13/10 ≤ s.easeFactor)
    (h0 : 0 ≤ g) (h5 : g ≤ 5) :
    (scheduler s g).easeFactor =
        max (13/10)
          (s.easeFactor + (1/10 - (5 - (g : ℚ)) * (8/100 + (5 - (g : ℚ)) * (2/100))))
    ∧ 13/10 ≤ (scheduler s g).easeFactor
    ∧ ∀ (st : Store) (u ka : String) (calls : List (ℤ × ℚ)) (item : ReviewItem),
        calls ≠ [] → (∀ c ∈ calls, 0 ≤ c.1 ∧ c.1 ≤ 5) →
        lookupRow (runReviews u ka st calls) (u, ka) = some item →
        13/10 ≤ item.easeFactor := by
  refine ⟨scheduler_easeFactor_eq s g, scheduler_easeFactor_floor s g, ?_⟩
  intro st u ka calls item hne hval hlook
  exact easeFactor_floor_runReviews u ka calls st hne hval item hlook

theorem srs_ease_floor_check :
    13/10 ≤ (scheduler defaultState 0).easeFactor :=
  (srs_ease_floor defaultState 0 (by norm_num [defaultState]) (by decide)
      (by decide)).2.1

/-- Claim C2: For every current state, the Scheduler applied to any integer
grade `< 3` yields `repetition = 0` and `interval = 1`. -/
theorem srs_lapse_reset (s : SchedState) (g : ℤ) (h : g < 3) :
    (scheduler s g).repetition = 0 ∧ (scheduler s g).interval = 1 := by
  unfold scheduler
  simp [h]

theorem srs_lapse_reset_check :
    (scheduler defaultState 2).repetition = 0 ∧ (scheduler defaultState 2).interval = 1 :=
  srs_lapse_reset defaultState 2 (by decide)

/-- Claim C3, counterexample: Starting from the defaults `{0, 0, 2.5}`, the
third consecutive grade-5 call stores interval 17, while
`round(6 * easeFactorAfterSecondCall) = round(6 * 2.7) = 16`: spec.md §4.1
computes the interval from the ease factor already updated in the same
(third) call, 2.8, not from the ease factor after the second call. -/
theorem srs_progression_cex :
    (scheduler (scheduler (scheduler defaultState 5) 5) 5).interval ≠
        ((jsRound (6 * (scheduler (scheduler defaultState 5) 5).easeFactor) : ℤ) : ℚ)
    ∧ (scheduler (scheduler (scheduler defaultState 5) 5) 5).interval = 17
    ∧ ((jsRound (6 * (scheduler (scheduler defaultState 5) 5).easeFactor) : ℤ) : ℚ) = 16 := by
  have h1 : scheduler defaultState 5 = ⟨1, 1, 13/5⟩ := by
    simp only [scheduler, efDelta, defaultState]; norm_num
  have h2 : scheduler ⟨1, 1, 13/5⟩ 5 = ⟨6, 2, 27/10⟩ := by
    simp only [scheduler, efDelta]; norm_num
  have h3 : scheduler ⟨6, 2, 27/10⟩ 5 = ⟨17, 3, 14/5⟩ := by
    simp only [scheduler, efDelta, jsRound]; norm_num
  rw [h1, h2, h3]
  norm_num [jsRound]

/-- Claim C3, amended: Starting from the defaults `{0, 0, 2.5}`, three
consecutive grade-5 calls produce intervals 1, 6 and
`round(6 * easeFactorAfterTHIRDCall) = round(6 * 2.8) = 17`, with repetition
taking values 1, 2, 3; in general for grade ≥ 3 the interval is 1 when the
new repetition is 1, 6 when it is 2, and
`round(previousInterval * newEaseFactor)` otherwise, where `newEaseFactor`
is the ease factor updated in the same call. -/
theorem srs_progression (s : SchedState) (g : ℤ) (hg : 3 ≤ g) :
    ((scheduler s g).repetition = s.repetition + 1
      ∧ (scheduler s g).interval =
          (if s.repetition + 1 = 1 then (1 : ℚ)
           else if s.repetition + 1 = 2 then 6
           else ((jsRound (s.interval * (scheduler s g).easeFactor) : ℤ) : ℚ)))
    ∧ scheduler defaultState 5 = ⟨1, 1, 13/5⟩
    ∧ scheduler ⟨1, 1, 13/5⟩ 5 = ⟨6, 2, 27/10⟩
    ∧ scheduler ⟨6, 2, 27/10⟩ 5 = ⟨17, 3, 14/5⟩
    ∧ (17 : ℚ) = ((jsRound (6 * (scheduler ⟨6, 2, 27/10⟩ 5).easeFactor) : ℤ) : ℚ) := by
  have hng : ¬(g < 3) := not_lt.mpr hg
  have h1 : scheduler defaultState 5 = ⟨1, 1, 13/5⟩ := by
    simp only [scheduler, efDelta, defaultState]; norm_num
  have h2 : scheduler ⟨1, 1, 13/5⟩ 5 = ⟨6, 2, 27/10⟩ := by
    simp only [scheduler, efDelta]; norm_num
  have h3 : scheduler ⟨6, 2, 27/10⟩ 5 = ⟨17, 3, 14/5⟩ := by
    simp only [scheduler, efDelta, jsRound]; norm_num
  refine ⟨⟨?_, ?_⟩, h1, h2, h3, ?_⟩
  · simp [scheduler, hng]
  · rw [scheduler_easeFactor_eq]
    simp only [scheduler, hng, if_false]
  · rw [h3]
    norm_num [jsRound]

theorem srs_progression_check :
    (scheduler defaultState 5).repetition = defaultState.repetition + 1 :=
  ((srs_progression defaultState 5 (by decide)).1).1

/-- Claim C4: For every `(userId, kanjiCharacter)` pair, any sequence of
`recordReview` calls for that pair keeps at most one row for the pair
(the upsert never duplicates a row), and after a successful call the fetched
scheduling state is exactly the Scheduler output of that call. -/
theorem srs_upsert_identity (st st' : Store) (u ka : String)
    (calls : List (ℤ × ℚ)) (g : ℤ) (now : ℚ)
    (hcount : countKey st (u, ka) ≤ 1)
    (hok : recordReview st u ka g now = .ok st') :
    countKey (runReviews u ka st calls) (u, ka) ≤ 1
    ∧ getOrDefault st' (u, ka) = scheduler (getOrDefault st (u, ka)) g := by
  constructor
  · exact countKey_runReviews u ka calls st hcount
  · rw [recordReview_ok_inv st st' u ka g now hok, getOrDefault_upsert]
    rfl

theorem srs_upsert_identity_check :
    countKey (runReviews "u1" "日" [] [(5, 0)]) ("u1", "日") ≤ 1
    ∧ getOrDefault [(("u1", "日"), ⟨1, 1, 13/5, 1, 0⟩)] ("u1", "日")
        = scheduler (getOrDefault [] ("u1", "日")) 5 :=
  srs_upsert_identity [] [(("u1", "日"), ⟨1, 1, 13/5, 1, 0⟩)] "u1" "日" [(5, 0)] 5 0
    (by simp [countKey])
    (by
      simp only [recordReview, reviewedItem, upsert, getOrDefault, lookupRow,
        defaultState, scheduler, efDelta]
      norm_num)

/-- Claim C5: A successful `recordReview(userId, kanjiCharacter, grade, now)`
stores a row whose `dueDate` equals `now` plus the newly computed interval
in days and whose `lastReviewedAt` is `now`. -/
theorem srs_due_date (st st' : Store) (u ka : String) (g : ℤ) (now : ℚ)
    (hok : recordReview st u ka g now = .ok st') :
    ∃ item : ReviewItem, lookupRow st' (u, ka) = some item
      ∧ item.dueDate = now + item.interval ∧ item.lastReviewedAt = now := by
  refine ⟨reviewedItem st u ka g now, ?_, rfl, rfl⟩
  rw [recordReview_ok_inv st st' u ka g now hok]
  exact lookupRow_upsert_self st (u, ka) (reviewedItem st u ka g now)

theorem srs_due_date_check :
    ∃ item : ReviewItem,
      lookupRow [(("u1", "日"), ⟨1, 1, 13/5, 1, 0⟩)] ("u1", "日") = some item
      ∧ item.dueDate = 0 + item.interval ∧ item.lastReviewedAt = 0 :=
  srs_due_date [] [(("u1", "日"), ⟨1, 1, 13/5, 1, 0⟩)] "u1" "日" 5 0
    (by
      simp only [recordReview, reviewedItem, upsert, getOrDefault, lookupRow,
        defaultState, scheduler, efDelta]
      norm_num)

/-- Claim C6: `getOrDefault` on a pair with no stored row returns the defaults
`{interval: 0, repetition: 0, easeFactor: 2.5}`; it is a total function, so
absence of a row is never an error. -/
theorem srs_get_or_default (st : Store) (u ka : String)
    (h : lookupRow st (u, ka) = none) :
    getOrDefault st (u, ka) = { interval := 0, repetition := 0, easeFactor := 5/2 } := by
  unfold getOrDefault
  rw [h]
  rfl

theorem srs_get_or_default_check :
    getOrDefault [] ("u1", "日") = { interval := 0, repetition := 0, easeFactor := 5/2 } :=
  srs_get_or_default [] "u1" "日" rfl

/-- Claim C7: A `recordReview` call with a grade outside `[0, 5]` fails with a
`ValidationError`, which is a distinct error kind from a `StorageError`, and
leaves the store — hence any `getOrDefault` result — unchanged. -/
theorem srs_invalid_grade (st : Store) (u ka : String) (g : ℤ) (now : ℚ)
    (h : g < 0 ∨ 5 < g) :
    recordReview st u ka g now = .error .validation
    ∧ SrsError.validation ≠ SrsError.storage
    ∧ runReviews u ka st [(g, now)] = st
    ∧ getOrDefault (runReviews u ka st [(g, now)]) (u, ka) = getOrDefault st (u, ka) := by
  have herr := recordReview_invalid_eq st u ka g now h
  have hrun : runReviews u ka st [(g, now)] = st := by
    simp only [runReviews, herr]
  exact ⟨herr, by simp, hrun, by rw [hrun]⟩

theorem srs_invalid_grade_check :
    recordReview [] "u1" "日" 6 0 = .error .validation
    ∧ SrsError.validation ≠ SrsError.storage
    ∧ runReviews "u1" "日" [] [(6, 0)] = []
    ∧ getOrDefault (runReviews "u1" "日" [] [(6, 0)]) ("u1", "日")
        = getOrDefault [] ("u1", "日") :=
  srs_invalid_grade [] "u1" "日" 6 0 (by decide)

/-- Claim C9: For every state and every integer grade in `[0, 5]`, the
Scheduler with its boundary validation never takes the failure branch:
it returns the pure Scheduler's output, and equal inputs give equal
outputs. -/
theorem scheduler_total_deterministic (s : SchedState) (g : ℤ)
    (h0 : 0 ≤ g) (h5 : g ≤ 5) :
    schedulerChecked s g = .ok (scheduler s g)
    ∧ ∀ (s' : SchedState) (g' : ℤ), s' = s → g' = g →
        scheduler s' g' = scheduler s g := by
  constructor
  · have : ¬(g < 0 ∨ 5 < g) := by omega
    simp [schedulerChecked, this]
  · rintro s' g' rfl rfl
    rfl

theorem scheduler_total_deterministic_check :
    schedulerChecked defaultState 3 = .ok (scheduler defaultState 3) :=
  (scheduler_total_deterministic defaultState 3 (by decide) (by decide)).1

/-- Claim C8, counterexample: The single character U+9FB0 lies inside the CJK
Unified Ideographs block (U+4E00–U+9FFF), so the specification's range test
accepts it, but the source regex upper bound is U+9FAF and the code rejects
it: acceptance is not equivalent to membership in the spec's blocks. -/
theorem kanji_validation_cex :
    specCJKAccepts [0x9FB0] = true ∧ handleReviewSubmitAccepts [0x9FB0] = false := by
  decide

/-- Claim C8, amended: A `kanjiCharacter` string is accepted by the boundary
validation iff it is a single UTF-16 unit lying within U+4E00–U+9FAF or
within U+3400–U+4DBF (the source's ranges; the first range stops at U+9FAF,
not at the end U+9FFF of the CJK Unified Ideographs block); any other string
is rejected before the Store is invoked. -/
theorem kanji_validation_amended (s : List ℕ) :
    handleReviewSubmitAccepts s = true ↔
      s.length = 1 ∧ ∀ c ∈ s, isKanjiCode c = true := by
  cases s with
  | nil => simp [handleReviewSubmitAccepts]
  | cons c rest =>
    cases rest with
    | nil => simp [handleReviewSubmitAccepts]
    | cons d rest2 => simp [handleReviewSubmitAccepts]

theorem kanji_validation_amended_check :
    handleReviewSubmitAccepts [0x65E5] = true :=
  (kanji_validation_amended [0x65E5]).mpr (by decide)

/-- Claim C10, counterexample: The input `"a。。"` is accepted by the endpoint,
but `match(/[^。！？]+[。！？]?/g)` yields the single match `"a。"`: the
second terminator cannot start a match and is dropped, so the concatenation
of the sentences differs from the input. -/
theorem sentence_split_cex :
    acceptsText ('a' :: '。' :: '。' :: []) = true
    ∧ sentences ('a' :: '。' :: '。' :: []) = [['a', '。']]
    ∧ (sentences ('a' :: '。' :: '。' :: [])).flatten ≠ 'a' :: '。' :: '。' :: [] := by
  decide

/-- Claim C10, amended: The sentence-splitting step always produces a
non-empty list of sentences, and the concatenation of the sentences equals
the original input whenever the input has no orphan terminator (no `。！？`
at the start of the text or immediately after another terminator); an orphan
terminator is dropped. -/
theorem sentence_split_amended (l : List Char) :
    sentences l ≠ []
    ∧ (noOrphan l = true → (sentences l).flatten = l) := by
  constructor
  · unfold sentences
    split
    · exact List.cons_ne_nil _ _
    · assumption
  · intro h
    have key := scanOK_foldl l [] [] (by simpa [noOrphan] using h)
    rcases hsplit : l.foldl splitStep ([], []) with ⟨a, b⟩
    rw [hsplit] at key
    simp only [List.flatten_nil, List.nil_append] at key
    cases b with
    | nil =>
      have hsc : splitCore l = a := by simp [splitCore, hsplit]
      have hflat : a.flatten = l := by simpa using key
      by_cases h3 : splitCore l = []
      · have ha : a = [] := by rw [← hsc]; exact h3
        have hl : l = [] := by rw [← hflat, ha]; rfl
        subst hl
        rfl
      · rw [sentences, if_neg h3, hsc]
        exact hflat
    | cons x xs =>
      have hsc : splitCore l = a ++ [x :: xs] := by simp [splitCore, hsplit]
      have hne : splitCore l ≠ [] := by rw [hsc]; simp
      rw [sentences, if_neg hne, hsc]
      simpa using key

theorem sentence_split_amended_check :
    (sentences ('a' :: '。' :: 'b' :: '！' :: [])).flatten
      = 'a' :: '。' :: 'b' :: '！' :: [] :=
  (sentence_split_amended ('a' :: '。' :: 'b' :: '！' :: [])).2 (by decide)

end JapaneseReader
